import Mathlib

/-!
Verification development for the MusicMade job-orchestration core.

The frontend sources (frontend/src/types/index.ts, the SeparationProgress
component in TablatureViewer.tsx, and the API client) are embedded directly.
The backend job store, state machine and executor are not present in the
repository snapshot; those parts are modelled from the specification
(sections 3, 4.1, 4.2, 5, 6 and 7 of spec.md), as marked on each definition.
-/

namespace MusicMade

/-- Job status enum, from frontend/src/types/index.ts (JobStatus). -/
inductive JobStatus where
  | pending
  | processing
  | completed
  | failed
deriving DecidableEq, Repr

/-- Separation algorithm enum, from frontend/src/types/index.ts (Algorithm). -/
inductive Algorithm where
  | demucs
  | spleeter
deriving DecidableEq, Repr

/-- Quality enum, from frontend/src/types/index.ts (Quality). -/
inductive Quality where
  | fast
  | high
deriving DecidableEq, Repr

/-- Instrument type enum, from frontend/src/types/index.ts (InstrumentType). -/
inductive InstrumentType where
  | guitar
  | bass
  | piano
deriving DecidableEq, Repr

/-- Modelled from the spec: job parameters (spec.md section 3, `params`), the
immutable configuration chosen at creation, for the two job kinds
(separation: algorithm/quality; tablature: instrument-type/tuning).
The backend job model is not in the repository snapshot. -/
inductive JobParams where
  | separation (algorithm : Algorithm) (quality : Quality)
  | tablature (instrument_type : InstrumentType) (tuning : String)
deriving DecidableEq, Repr

/-- Modelled from the spec: the Job record (spec.md section 3), matching the
fields the frontend sees in frontend/src/types/index.ts (SeparationJob).
Identifiers and timestamps are opaque, modelled as naturals. -/
structure Job where
  id : Nat
  status : JobStatus
  progress : Nat
  params : JobParams
  error_message : Option String
  created_at : Nat
  started_at : Option Nat
  completed_at : Option Nat
  result_refs : List Nat
deriving DecidableEq, Repr

/-- Modelled from the spec: the Track record (spec.md section 3), matching
frontend/src/types/index.ts (Track). -/
structure Track where
  id : Nat
  separation_job_id : Nat
  instrument_name : String
deriving DecidableEq, Repr

/-- Modelled from the spec: the Tablature record (spec.md section 3), matching
frontend/src/types/index.ts (Tablature). -/
structure Tablature where
  id : Nat
  track_id : Nat
  instrument_type : InstrumentType
  tuning : String
  content : String
deriving DecidableEq, Repr

/-- Modelled from the spec: the Job Record Store plus the executor's
single-slot flag (spec.md sections 2, 4.2 and 9: a process-wide
"is something running" flag owned by the Job Executor), and the derived
Track/Tablature rows. The backend store is not in the repository snapshot. -/
structure SysState where
  jobs : Nat → Option Job
  tracks : List Track
  tablatures : List Tablature
  busy : Bool

/-- Point update of the job store at one id. -/
def setJob (f : Nat → Option Job) (id : Nat) (j : Job) : Nat → Option Job :=
  fun i => if i = id then some j else f i

/-- Modelled from the spec: job creation (spec.md sections 3 and 6): a fresh
Job in PENDING with progress 0, no timestamps besides created_at, empty
result_refs, no error. The backend creation handler is not in the snapshot. -/
def mkJob (id : Nat) (ps : JobParams) (t : Nat) : Job :=
  { id := id
    status := .pending
    progress := 0
    params := ps
    error_message := none
    created_at := t
    started_at := none
    completed_at := none
    result_refs := [] }

/-- Modelled from the spec: the events of the orchestration core
(spec.md sections 4.1 and 6): creation, the executor dequeueing a job,
an engine progress report, engine success/failure, and client deletion. -/
inductive Event where
  | create (id : Nat) (ps : JobParams) (t : Nat)
  | start (id : Nat) (t : Nat)
  | report (id : Nat) (r : Nat)
  | complete (id : Nat) (newTracks : List Track) (t : Nat)
  | fail (id : Nat) (msg : String) (t : Nat)
  | delete (id : Nat)

/-- Modelled from the spec: the transition table of spec.md section 4.1
together with the single-slot in-process policy of sections 4.2 and 9 and
the delete semantics of sections 5 and 6. Guards that do not hold yield
`none` (the event cannot fire). The backend executor is not in the
repository snapshot. -/
def step (s : SysState) (e : Event) : Option SysState :=
  match e with
  | .create id ps t =>
      match s.jobs id with
      | some _ => none
      | none => some { s with jobs := setJob s.jobs id (mkJob id ps t) }
  | .start id t =>
      match s.jobs id with
      | none => none
      | some j =>
          if j.status = .pending ∧ s.busy = false then
            some { s with
              jobs := setJob s.jobs id
                { j with status := .processing, started_at := some t, progress := 0 },
              busy := true }
          else none
  | .report id r =>
      match s.jobs id with
      | none => none
      | some j =>
          if j.status = .processing ∧ r ≤ 100 then
            some { s with
              jobs := setJob s.jobs id { j with progress := max j.progress r } }
          else none
  | .complete id newTracks t =>
      match s.jobs id with
      | none => none
      | some j =>
          if j.status = .processing ∧ newTracks ≠ [] ∧
              (∀ tr ∈ newTracks, tr.separation_job_id = id) then
            some { jobs := setJob s.jobs id
                     { j with
                       status := .completed
                       progress := 100
                       completed_at := some t
                       result_refs := newTracks.map (fun tr => tr.id) },
                   tracks := s.tracks ++ newTracks,
                   tablatures := s.tablatures,
                   busy := false }
          else none
  | .fail id msg t =>
      match s.jobs id with
      | none => none
      | some j =>
          if j.status = .processing then
            some { s with
              jobs := setJob s.jobs id
                { j with
                  status := .failed
                  completed_at := some t
                  error_message := some msg },
              busy := false }
          else none
  | .delete id =>
      match s.jobs id with
      | none => none
      | some j =>
          if j.status = .processing then none
          else some
            { jobs := fun i => if i = id then none else s.jobs i,
              tracks := s.tracks.filter (fun tr => tr.separation_job_id != id),
              tablatures := s.tablatures.filter
                (fun tb => s.tracks.all
                  (fun tr => tr.separation_job_id != id || tb.track_id != tr.id)),
              busy := s.busy }

/-- The empty initial state: no jobs, no derived rows, slot free. -/
def initState : SysState :=
  { jobs := fun _ => none, tracks := [], tablatures := [], busy := false }

/-- States reachable from the empty store by the events of the core. -/
inductive Reachable : SysState → Prop where
  | init : Reachable initState
  | step {s s' : SysState} (e : Event) :
      Reachable s → step s e = some s' → Reachable s'

/-- Run a list of events in order; `none` if any guard fails. -/
def runEvents (s : SysState) : List Event → Option SysState
  | [] => some s
  | e :: es => (step s e).bind (fun s1 => runEvents s1 es)

/-- Error outcomes of the job API (spec.md sections 6 and 7): not-found for an
unknown id, conflict for deleting a PROCESSING job. -/
inductive ApiError where
  | notFound
  | conflict
deriving DecidableEq, Repr

/-- Modelled from the spec: the status-read endpoint (spec.md section 6,
"Read job status": full Job record or a not-found error). The backend
GET handler is not in the repository snapshot. -/
def getJobStatus (s : SysState) (id : Nat) : Except ApiError Job :=
  match s.jobs id with
  | none => .error .notFound
  | some j => .ok j

/-- Modelled from the spec: the delete endpoint (spec.md sections 5 and 6):
removes the Job and its derived Tracks/Tablatures; a defined conflict error
if the job is PROCESSING, not-found if the id is unknown. The backend
DELETE handler is not in the repository snapshot. -/
def deleteJob (s : SysState) (id : Nat) : Except ApiError SysState :=
  match s.jobs id with
  | none => .error .notFound
  | some j =>
      if j.status = .processing then .error .conflict
      else .ok
        { jobs := fun i => if i = id then none else s.jobs i,
          tracks := s.tracks.filter (fun tr => tr.separation_job_id != id),
          tablatures := s.tablatures.filter
            (fun tb => s.tracks.all
              (fun tr => tr.separation_job_id != id || tb.track_id != tr.id)),
          busy := s.busy }

/-- Modelled from the spec: the Engine Adapter outcome at its boundary
(spec.md section 6): success with labeled stems, or a described failure. -/
inductive EngineOutcome where
  | success (stems : List String)
  | failure (msg : String)
deriving DecidableEq, Repr

/-- Modelled from the spec: one engine invocation as observed by the
Executor: the sequence of coarse progress reports, then the outcome
(spec.md sections 2 and 6). -/
structure EngineRun where
  reports : List Nat
  outcome : EngineOutcome
deriving DecidableEq, Repr

/-- Modelled from the spec: the Executor running one job to a terminal state
(spec.md sections 4.1, 4.2 and 7): dequeue PENDING to PROCESSING, apply each
engine progress report as progress = max(progress, reported), then convert
the engine outcome to COMPLETED (progress 100, result_refs populated) or to
FAILED (error_message recorded, progress retained); any engine exception is
caught here, never propagated. A non-PENDING job is left untouched
(idempotent duplicate-dispatch handling, spec.md section 5). The backend
executor is not in the repository snapshot. -/
def execJob (j : Job) (t1 : Nat) (run : EngineRun) (trackIds : List Nat)
    (t2 : Nat) : Job :=
  if j.status = .pending then
    let j1 := { j with status := .processing, started_at := some t1, progress := 0 }
    let j2 := run.reports.foldl
      (fun jj r => { jj with progress := max jj.progress r }) j1
    match run.outcome with
    | .success _ =>
        { j2 with
          status := .completed
          progress := 100
          completed_at := some t2
          result_refs := trackIds }
    | .failure msg =>
        { j2 with
          status := .failed
          completed_at := some t2
          error_message := some msg }
  else j

/-- Modelled from the spec: the Executor running one job, also counting how
many times the Engine Adapter is invoked (0 when the dispatch is a no-op
because the job is not PENDING; spec.md sections 5 and 8, idempotence). -/
def execJobCounted (j : Job) (t1 : Nat) (run : EngineRun) (trackIds : List Nat)
    (t2 : Nat) : Job × Nat :=
  if j.status = .pending then (execJob j t1 run trackIds t2, 1) else (j, 0)

/-! ### Frontend status-channel client, embedded from the source -/

/-- Frontend Track record, from frontend/src/types/index.ts (Track). -/
structure TrackRec where
  id : String
  separation_job_id : String
  instrument_name : String
  duration : Option Nat
  file_size : Option Nat
deriving DecidableEq, Repr

/-- Frontend SeparationJob record, from frontend/src/types/index.ts
(SeparationJob). -/
structure SeparationJob where
  id : String
  audio_file_id : String
  status : JobStatus
  algorithm : String
  quality : String
  progress : Nat
  error_message : Option String
  created_at : String
  started_at : Option String
  completed_at : Option String
  tracks : List TrackRec
deriving DecidableEq, Repr

/-- Push payload, from frontend/src/types/index.ts (JobStatusUpdate). -/
structure JobStatusUpdate where
  job_id : String
  status : JobStatus
  progress : Nat
  error_message : Option String
deriving DecidableEq, Repr

/-- React state of the SeparationProgress component
(frontend/src/components/TablatureViewer.tsx, lines 183-242): the `job` and
`error` state hooks, the arguments passed to the `onCompleted` callback, and
whether the poll interval is still installed. -/
structure ProgressState where
  job : Option SeparationJob
  error : Option String
  completedCalls : List SeparationJob
  pollActive : Bool
deriving DecidableEq, Repr

/-- Initial SeparationProgress state once polling has started:
no job fetched yet, no error, no completion callback fired. -/
def initProgressState : ProgressState :=
  { job := none, error := none, completedCalls := [], pollActive := true }

/-- The fallback error text used when a FAILED job has no error_message
(TablatureViewer.tsx lines 200 and 221). -/
def defaultErrorText : String := "Separation failed"

/-- The poll interval passed to setInterval in the SeparationProgress
component (TablatureViewer.tsx lines 228 and 232), in milliseconds. -/
def pollIntervalMs : Nat := 2000

/-- One execution of fetchJobStatus in the SeparationProgress component
(TablatureViewer.tsx lines 191-206), given the record the pull read
returned: store it with setJob; on COMPLETED invoke onCompleted and clear
the interval; on FAILED set the error text and clear the interval. -/
def fetchJobStatusStep (st : ProgressState) (jobData : SeparationJob) :
    ProgressState :=
  let st1 := { st with job := some jobData }
  if jobData.status = .completed then
    { st1 with
      completedCalls := st1.completedCalls ++ [jobData]
      pollActive := false }
  else if jobData.status = .failed then
    { st1 with
      error := some (jobData.error_message.getD defaultErrorText)
      pollActive := false }
  else st1

/-- The polling loop of the SeparationProgress component: every
pollIntervalMs the installed interval runs fetchJobStatus on the next
snapshot the server returns, until the interval is cleared
(TablatureViewer.tsx lines 191-206 and 226-233). The list holds the
successive reads the server would answer. -/
def pollLoop (st : ProgressState) : List SeparationJob → ProgressState
  | [] => st
  | r :: rs =>
      let st1 := fetchJobStatusStep st r
      if st1.pollActive then pollLoop st1 rs else st1

/-- The ws.onmessage handler of the SeparationProgress component
(TablatureViewer.tsx lines 212-224): the push payload is parsed, then a
fresh pull read (getJobStatus) is issued and the component state is updated
from the fetched record only; `fetched` is the record that pull read
returned. The interval state is untouched by this handler. -/
def handlePushMessage (update : JobStatusUpdate) (fetched : SeparationJob)
    (st : ProgressState) : ProgressState :=
  let st1 := { st with job := some fetched }
  if fetched.status = .completed then
    { st1 with completedCalls := st1.completedCalls ++ [fetched] }
  else if fetched.status = .failed then
    { st1 with error := some (fetched.error_message.getD defaultErrorText) }
  else st1

/-! ### Invariants of the orchestration core -/

/-- At most one job is PROCESSING (single-slot policy, spec.md section 4.2). -/
def AtMostOneProcessing (s : SysState) : Prop :=
  ∀ i1 i2 j1 j2, s.jobs i1 = some j1 → j1.status = .processing →
    s.jobs i2 = some j2 → j2.status = .processing → i1 = i2

/-- When the executor slot is free, no job is PROCESSING. -/
def SlotFreeNoneProcessing (s : SysState) : Prop :=
  s.busy = false → ∀ i j, s.jobs i = some j → j.status ≠ .processing

/-- Every stored job's progress lies in [0,100] (spec.md section 3). -/
def ProgressBounded (s : SysState) : Prop :=
  ∀ i j, s.jobs i = some j → j.progress ≤ 100

/-- result_refs is non-empty iff the job is COMPLETED (spec.md section 3). -/
def RefsIffCompleted (s : SysState) : Prop :=
  ∀ i j, s.jobs i = some j → (j.result_refs ≠ [] ↔ j.status = .completed)

/-- error_message is set iff the job is FAILED (spec.md section 3). -/
def ErrIffFailed (s : SysState) : Prop :=
  ∀ i j, s.jobs i = some j →
    (j.error_message.isSome = true ↔ j.status = .failed)

/-- The conjunction of the store invariants preserved by every event. -/
def Inv (s : SysState) : Prop :=
  AtMostOneProcessing s ∧ SlotFreeNoneProcessing s ∧ ProgressBounded s ∧
    RefsIffCompleted s ∧ ErrIffFailed s

/-- A successful lookup after a point update is either the new job (at the
updated id) or an unchanged lookup elsewhere. -/
theorem setJob_lookup {f : Nat → Option Job} {id i : Nat} {jnew j : Job}
    (h : setJob f id jnew i = some j) :
    (i = id ∧ j = jnew) ∨ (i ≠ id ∧ f i = some j) := by
  by_cases hi : i = id
  · simp only [setJob, if_pos hi] at h
    exact Or.inl ⟨hi, (Option.some.inj h).symm⟩
  · simp only [setJob, if_neg hi] at h
    exact Or.inr ⟨hi, h⟩

/-- A pointwise job property holds after a point update when it held
everywhere before and holds of the new job. -/
theorem pointwise_setJob {P : Job → Prop} {f : Nat → Option Job} {id : Nat}
    {jnew : Job} (hf : ∀ i j, f i = some j → P j) (hnew : P jnew) :
    ∀ i j, setJob f id jnew i = some j → P j := by
  intro i j h
  rcases setJob_lookup h with ⟨_, rfl⟩ | ⟨_, h2⟩
  · exact hnew
  · exact hf i j h2

/-- The store invariants hold in the initial state. -/
theorem inv_init : Inv initState := by
  refine ⟨?_, ?_, ?_, ?_, ?_⟩ <;>
    intro i <;> intros <;> simp_all [initState]

/-- Every event of the core preserves the store invariants. -/
theorem inv_step {s s' : SysState} {e : Event} (hst : step s e = some s')
    (hs : Inv s) : Inv s' := by
  obtain ⟨hA, hF, hP, hR, hE⟩ := hs
  cases e with
  | create id ps t =>
      simp only [step] at hst
      split at hst
      · exact Option.noConfusion hst
      · rename_i j hj
        obtain rfl := Option.some.inj hst
        refine ⟨?_, ?_, ?_, ?_, ?_⟩
        · intro i1 i2 j1 j2 h1 hp1 h2 hp2
          rcases setJob_lookup h1 with ⟨_, rfl⟩ | ⟨_, h1'⟩
          · simp [mkJob] at hp1
          · rcases setJob_lookup h2 with ⟨_, rfl⟩ | ⟨_, h2'⟩
            · simp [mkJob] at hp2
            · exact hA _ _ _ _ h1' hp1 h2' hp2
        · intro hb i j1 h1
          rcases setJob_lookup h1 with ⟨_, rfl⟩ | ⟨_, h1'⟩
          · simp [mkJob]
          · exact hF hb i j1 h1'
        · exact pointwise_setJob hP (by simp [mkJob])
        · exact pointwise_setJob hR (by simp [mkJob])
        · exact pointwise_setJob hE (by simp [mkJob])
  | start id t =>
      simp only [step] at hst
      split at hst
      · exact Option.noConfusion hst
      · rename_i j hj
        split at hst
        · rename_i hcond
          obtain ⟨hpend, hbusy⟩ := hcond
          obtain rfl := Option.some.inj hst
          have hrefs : j.result_refs = [] := by
            by_contra hne
            have := (hR _ _ hj).mp hne
            rw [hpend] at this
            exact JobStatus.noConfusion this
          have herr : j.error_message = none := by
            cases he : j.error_message with
            | none => rfl
            | some m =>
                have := (hE _ _ hj).mp (by simp [he])
                rw [hpend] at this
                exact JobStatus.noConfusion this
          refine ⟨?_, ?_, ?_, ?_, ?_⟩
          · intro i1 i2 j1 j2 h1 hp1 h2 hp2
            rcases setJob_lookup h1 with ⟨rfl, rfl⟩ | ⟨hne1, h1'⟩
            · rcases setJob_lookup h2 with ⟨rfl, rfl⟩ | ⟨hne2, h2'⟩
              · rfl
              · exact absurd hp2 (hF hbusy _ _ h2')
            · exact absurd hp1 (hF hbusy _ _ h1')
          · intro hb
            exact absurd hb (by simp)
          · exact pointwise_setJob hP (by simp)
          · exact pointwise_setJob hR (by simp [hrefs])
          · exact pointwise_setJob hE (by simp [herr])
        · exact Option.noConfusion hst
  | report id r =>
      simp only [step] at hst
      split at hst
      · exact Option.noConfusion hst
      · rename_i j hj
        split at hst
        · rename_i hcond
          obtain ⟨hproc, hr⟩ := hcond
          obtain rfl := Option.some.inj hst
          refine ⟨?_, ?_, ?_, ?_, ?_⟩
          · intro i1 i2 j1 j2 h1 hp1 h2 hp2
            rcases setJob_lookup h1 with ⟨rfl, rfl⟩ | ⟨hne1, h1'⟩
            · rcases setJob_lookup h2 with ⟨rfl, rfl⟩ | ⟨hne2, h2'⟩
              · rfl
              · exact hA _ _ _ _ hj hproc h2' hp2
            · rcases setJob_lookup h2 with ⟨rfl, rfl⟩ | ⟨hne2, h2'⟩
              · exact hA _ _ _ _ h1' hp1 hj hproc
              · exact hA _ _ _ _ h1' hp1 h2' hp2
          · intro hb
            exact absurd hproc (hF hb _ _ hj)
          · exact pointwise_setJob hP
              (by simpa using Nat.max_le.mpr ⟨hP _ _ hj, hr⟩)
          · exact pointwise_setJob hR (by simpa using hR _ _ hj)
          · exact pointwise_setJob hE (by simpa using hE _ _ hj)
        · exact Option.noConfusion hst
  | complete id newTracks t =>
      simp only [step] at hst
      split at hst
      · exact Option.noConfusion hst
      · rename_i j hj
        split at hst
        · rename_i hcond
          obtain ⟨hproc, hne, hown⟩ := hcond
          obtain rfl := Option.some.inj hst
          have herr : j.error_message = none := by
            cases he : j.error_message with
            | none => rfl
            | some m =>
                have := (hE _ _ hj).mp (by simp [he])
                rw [hproc] at this
                exact JobStatus.noConfusion this
          refine ⟨?_, ?_, ?_, ?_, ?_⟩
          · intro i1 i2 j1 j2 h1 hp1 h2 hp2
            rcases setJob_lookup h1 with ⟨rfl, rfl⟩ | ⟨hne1, h1'⟩
            · exact absurd hp1 (by simp)
            · have : i1 = id := hA _ _ _ _ h1' hp1 hj hproc
              exact absurd this hne1
          · intro _ i j1 h1
            rcases setJob_lookup h1 with ⟨rfl, rfl⟩ | ⟨hne1, h1'⟩
            · simp
            · intro hp1
              exact hne1 (hA _ _ _ _ h1' hp1 hj hproc)
          · exact pointwise_setJob hP (by simp)
          · exact pointwise_setJob hR (by simp [hne])
          · exact pointwise_setJob hE (by simp [herr])
        · exact Option.noConfusion hst
  | fail id msg t =>
      simp only [step] at hst
      split at hst
      · exact Option.noConfusion hst
      · rename_i j hj
        split at hst
        · rename_i hproc
          obtain rfl := Option.some.inj hst
          have hrefs : j.result_refs = [] := by
            by_contra hne
            have := (hR _ _ hj).mp hne
            rw [hproc] at this
            exact JobStatus.noConfusion this
          refine ⟨?_, ?_, ?_, ?_, ?_⟩
          · intro i1 i2 j1 j2 h1 hp1 h2 hp2
            rcases setJob_lookup h1 with ⟨rfl, rfl⟩ | ⟨hne1, h1'⟩
            · exact absurd hp1 (by simp)
            · have : i1 = id := hA _ _ _ _ h1' hp1 hj hproc
              exact absurd this hne1
          · intro _ i j1 h1
            rcases setJob_lookup h1 with ⟨rfl, rfl⟩ | ⟨hne1, h1'⟩
            · simp
            · intro hp1
              exact hne1 (hA _ _ _ _ h1' hp1 hj hproc)
          · exact pointwise_setJob hP (by simpa using hP _ _ hj)
          · exact pointwise_setJob hR (by simp [hrefs])
          · exact pointwise_setJob hE (by simp)
        · exact Option.noConfusion hst
  | delete id =>
      simp only [step] at hst
      split at hst
      · exact Option.noConfusion hst
      · rename_i j hj
        split at hst
        · exact Option.noConfusion hst
        · obtain rfl := Option.some.inj hst
          have hmap : ∀ i j1,
              (if i = id then none else s.jobs i) = some j1 →
              s.jobs i = some j1 := by
            intro i j1 h1
            by_cases hi : i = id
            · rw [if_pos hi] at h1
              exact Option.noConfusion h1
            · rwa [if_neg hi] at h1
          refine ⟨?_, ?_, ?_, ?_, ?_⟩
          · intro i1 i2 j1 j2 h1 hp1 h2 hp2
            exact hA _ _ _ _ (hmap _ _ h1) hp1 (hmap _ _ h2) hp2
          · intro hb i j1 h1
            exact hF hb i j1 (hmap _ _ h1)
          · intro i j1 h1
            exact hP _ _ (hmap _ _ h1)
          · intro i j1 h1
            exact hR _ _ (hmap _ _ h1)
          · intro i j1 h1
            exact hE _ _ (hmap _ _ h1)

/-- Every reachable state satisfies the store invariants. -/
theorem reachable_inv {s : SysState} (h : Reachable s) : Inv s := by
  induction h with
  | init => exact inv_init
  | step e _ hstep ih => exact inv_step hstep ih

/-- No event changes a job that is already in a terminal state
(COMPLETED or FAILED): if the job is still present afterwards it is
unchanged. -/
theorem terminal_step_unchanged {s s' : SysState} {e : Event} {i : Nat}
    {j j' : Job} (hst : step s e = some s') (hj : s.jobs i = some j)
    (hterm : j.status = .completed ∨ j.status = .failed)
    (hj' : s'.jobs i = some j') : j' = j := by
  have hnp : j.status ≠ .pending := by
    rcases hterm with h | h <;> simp [h]
  have hnproc : j.status ≠ .processing := by
    rcases hterm with h | h <;> simp [h]
  cases e with
  | create id ps t =>
      simp only [step] at hst
      split at hst
      · exact Option.noConfusion hst
      · rename_i hnone
        obtain rfl := Option.some.inj hst
        rcases setJob_lookup hj' with ⟨rfl, rfl⟩ | ⟨_, h2⟩
        · rw [hnone] at hj
          exact Option.noConfusion hj
        · rw [hj] at h2
          exact (Option.some.inj h2).symm
  | start id t =>
      simp only [step] at hst
      split at hst
      · exact Option.noConfusion hst
      · rename_i jx hjx
        split at hst
        · rename_i hc
          obtain rfl := Option.some.inj hst
          rcases setJob_lookup hj' with ⟨rfl, rfl⟩ | ⟨_, h2⟩
          · rw [hjx] at hj
            obtain rfl := Option.some.inj hj
            exact absurd hc.1 hnp
          · rw [hj] at h2
            exact (Option.some.inj h2).symm
        · exact Option.noConfusion hst
  | report id r =>
      simp only [step] at hst
      split at hst
      · exact Option.noConfusion hst
      · rename_i jx hjx
        split at hst
        · rename_i hc
          obtain rfl := Option.some.inj hst
          rcases setJob_lookup hj' with ⟨rfl, rfl⟩ | ⟨_, h2⟩
          · rw [hjx] at hj
            obtain rfl := Option.some.inj hj
            exact absurd hc.1 hnproc
          · rw [hj] at h2
            exact (Option.some.inj h2).symm
        · exact Option.noConfusion hst
  | complete id newTracks t =>
      simp only [step] at hst
      split at hst
      · exact Option.noConfusion hst
      · rename_i jx hjx
        split at hst
        · rename_i hc
          obtain rfl := Option.some.inj hst
          rcases setJob_lookup hj' with ⟨rfl, rfl⟩ | ⟨_, h2⟩
          · rw [hjx] at hj
            obtain rfl := Option.some.inj hj
            exact absurd hc.1 hnproc
          · rw [hj] at h2
            exact (Option.some.inj h2).symm
        · exact Option.noConfusion hst
  | fail id msg t =>
      simp only [step] at hst
      split at hst
      · exact Option.noConfusion hst
      · rename_i jx hjx
        split at hst
        · rename_i hc
          obtain rfl := Option.some.inj hst
          rcases setJob_lookup hj' with ⟨rfl, rfl⟩ | ⟨_, h2⟩
          · rw [hjx] at hj
            obtain rfl := Option.some.inj hj
            exact absurd hc hnproc
          · rw [hj] at h2
            exact (Option.some.inj h2).symm
        · exact Option.noConfusion hst
  | delete id =>
      simp only [step] at hst
      split at hst
      · exact Option.noConfusion hst
      · rename_i jx hjx
        split at hst
        · exact Option.noConfusion hst
        · obtain rfl := Option.some.inj hst
          by_cases hi : i = id
          · simp only [hi, if_pos rfl] at hj'
            exact Option.noConfusion hj'
          · simp only [if_neg hi] at hj'
            rw [hj] at hj'
            exact (Option.some.inj hj').symm

/-- A PROCESSING job stays present across any event, and afterwards its
status is PROCESSING or one of the terminal states — a job never returns
to PENDING from PROCESSING. -/
theorem processing_evolves_step {s s' : SysState} {e : Event}
    (hst : step s e = some s') {i : Nat} {j : Job}
    (hj : s.jobs i = some j) (hp : j.status = .processing) :
    ∀ j', s'.jobs i = some j' →
      j'.status = .processing ∨ j'.status = .completed ∨
        j'.status = .failed := by
  intro j' hj'
  cases e with
  | create id ps t =>
      simp only [step] at hst
      split at hst
      · exact Option.noConfusion hst
      · rename_i hnone
        obtain rfl := Option.some.inj hst
        rcases setJob_lookup hj' with ⟨rfl, rfl⟩ | ⟨_, h2⟩
        · rw [hnone] at hj
          exact Option.noConfusion hj
        · rw [hj] at h2
          obtain rfl := Option.some.inj h2
          exact Or.inl hp
  | start id t =>
      simp only [step] at hst
      split at hst
      · exact Option.noConfusion hst
      · rename_i jx hjx
        split at hst
        · obtain rfl := Option.some.inj hst
          rcases setJob_lookup hj' with ⟨rfl, rfl⟩ | ⟨_, h2⟩
          · exact Or.inl rfl
          · rw [hj] at h2
            obtain rfl := Option.some.inj h2
            exact Or.inl hp
        · exact Option.noConfusion hst
  | report id r =>
      simp only [step] at hst
      split at hst
      · exact Option.noConfusion hst
      · rename_i jx hjx
        split at hst
        · rename_i hc
          obtain rfl := Option.some.inj hst
          rcases setJob_lookup hj' with ⟨rfl, rfl⟩ | ⟨_, h2⟩
          · exact Or.inl hc.1
          · rw [hj] at h2
            obtain rfl := Option.some.inj h2
            exact Or.inl hp
        · exact Option.noConfusion hst
  | complete id newTracks t =>
      simp only [step] at hst
      split at hst
      · exact Option.noConfusion hst
      · rename_i jx hjx
        split at hst
        · obtain rfl := Option.some.inj hst
          rcases setJob_lookup hj' with ⟨rfl, rfl⟩ | ⟨_, h2⟩
          · exact Or.inr (Or.inl rfl)
          · rw [hj] at h2
            obtain rfl := Option.some.inj h2
            exact Or.inl hp
        · exact Option.noConfusion hst
  | fail id msg t =>
      simp only [step] at hst
      split at hst
      · exact Option.noConfusion hst
      · rename_i jx hjx
        split at hst
        · obtain rfl := Option.some.inj hst
          rcases setJob_lookup hj' with ⟨rfl, rfl⟩ | ⟨_, h2⟩
          · exact Or.inr (Or.inr rfl)
          · rw [hj] at h2
            obtain rfl := Option.some.inj h2
            exact Or.inl hp
        · exact Option.noConfusion hst
  | delete id =>
      simp only [step] at hst
      split at hst
      · exact Option.noConfusion hst
      · rename_i jx hjx
        split at hst
        · exact Option.noConfusion hst
        · obtain rfl := Option.some.inj hst
          by_cases hi : i = id
          · simp only [hi, if_pos rfl] at hj'
            exact Option.noConfusion hj'
          · simp only [if_neg hi] at hj'
            rw [hj] at hj'
            obtain rfl := Option.some.inj hj'
            exact Or.inl hp

/-- While some other job is PROCESSING, a PENDING job cannot leave PENDING
in a single event: the single-slot guard blocks its start, and no other
event moves a job out of PENDING. -/
theorem pending_preserved_step {s s' : SysState} {e : Event}
    (hInv : Inv s) (hst : step s e = some s')
    {i1 : Nat} {j1 : Job} (h1 : s.jobs i1 = some j1)
    (hp1 : j1.status = .processing) {i2 : Nat} (hne : i2 ≠ i1)
    (h2 : ∀ jx, s.jobs i2 = some jx → jx.status = .pending) :
    ∀ j2', s'.jobs i2 = some j2' → j2'.status = .pending := by
  obtain ⟨hA, hF, hP, hR, hE⟩ := hInv
  intro j2' hj2'
  cases e with
  | create id ps t =>
      simp only [step] at hst
      split at hst
      · exact Option.noConfusion hst
      · obtain rfl := Option.some.inj hst
        rcases setJob_lookup hj2' with ⟨rfl, rfl⟩ | ⟨_, hx⟩
        · simp [mkJob]
        · exact h2 _ hx
  | start id t =>
      simp only [step] at hst
      split at hst
      · exact Option.noConfusion hst
      · rename_i jx hjx
        split at hst
        · rename_i hc
          exact absurd hp1 (hF hc.2 _ _ h1)
        · exact Option.noConfusion hst
  | report id r =>
      simp only [step] at hst
      split at hst
      · exact Option.noConfusion hst
      · rename_i jx hjx
        split at hst
        · rename_i hc
          obtain rfl := Option.some.inj hst
          rcases setJob_lookup hj2' with ⟨rfl, rfl⟩ | ⟨_, hx⟩
          · have := h2 _ hjx
            rw [this] at hc
            exact absurd hc.1 (by simp)
          · exact h2 _ hx
        · exact Option.noConfusion hst
  | complete id newTracks t =>
      simp only [step] at hst
      split at hst
      · exact Option.noConfusion hst
      · rename_i jx hjx
        split at hst
        · rename_i hc
          obtain rfl := Option.some.inj hst
          rcases setJob_lookup hj2' with ⟨rfl, rfl⟩ | ⟨_, hx⟩
          · have := h2 _ hjx
            rw [this] at hc
            exact absurd hc.1 (by simp)
          · exact h2 _ hx
        · exact Option.noConfusion hst
  | fail id msg t =>
      simp only [step] at hst
      split at hst
      · exact Option.noConfusion hst
      · rename_i jx hjx
        split at hst
        · rename_i hc
          obtain rfl := Option.some.inj hst
          rcases setJob_lookup hj2' with ⟨rfl, rfl⟩ | ⟨_, hx⟩
          · have := h2 _ hjx
            rw [this] at hc
            exact absurd hc (by simp)
          · exact h2 _ hx
        · exact Option.noConfusion hst
  | delete id =>
      simp only [step] at hst
      split at hst
      · exact Option.noConfusion hst
      · rename_i jx hjx
        split at hst
        · exact Option.noConfusion hst
        · obtain rfl := Option.some.inj hst
          by_cases hi : i2 = id
          · simp only [hi, if_pos rfl] at hj2'
            exact Option.noConfusion hj2'
          · simp only [if_neg hi] at hj2'
            exact h2 _ hj2'

/-- Folding progress reports over a job only raises the progress field:
the fold equals a single update to the running maximum of the reports. -/
theorem foldl_reports (rs : List Nat) (j : Job) :
    rs.foldl (fun jj r => { jj with progress := max jj.progress r }) j =
      { j with progress := rs.foldl max j.progress } := by
  induction rs generalizing j with
  | nil => rfl
  | cons r rs ih =>
      simp only [List.foldl_cons]
      rw [ih]

/-- From PENDING, one executor run always ends in a terminal state. -/
theorem execJob_terminal (j : Job) (t1 t2 : Nat) (run : EngineRun)
    (ids : List Nat) (hp : j.status = .pending) :
    (execJob j t1 run ids t2).status = .completed ∨
      (execJob j t1 run ids t2).status = .failed := by
  obtain ⟨reports, outcome⟩ := run
  cases outcome <;> simp [execJob, hp, foldl_reports]

/-- A fetchJobStatus execution that reads a non-terminal snapshot only
stores the snapshot; it neither clears the interval nor fires a handler. -/
theorem fetchStep_nonterminal (st : ProgressState) (r : SeparationJob)
    (hc : r.status ≠ .completed) (hf : r.status ≠ .failed) :
    fetchJobStatusStep st r = { st with job := some r } := by
  simp [fetchJobStatusStep, hc, hf]

/-- Running the poll loop through a prefix of non-terminal reads keeps the
interval installed and leaves the error and completion-callback state
untouched. -/
theorem pollLoop_nonterminal_prefix (pre : List SeparationJob) :
    ∀ (st : ProgressState), st.pollActive = true →
    (∀ r ∈ pre, r.status ≠ .completed ∧ r.status ≠ .failed) →
    ∀ rest, ∃ st2 : ProgressState,
      pollLoop st (pre ++ rest) = pollLoop st2 rest ∧
      st2.pollActive = true ∧ st2.error = st.error ∧
      st2.completedCalls = st.completedCalls := by
  induction pre with
  | nil =>
      intro st hact _ rest
      exact ⟨st, rfl, hact, rfl, rfl⟩
  | cons r pre ih =>
      intro st hact hall rest
      obtain ⟨hc, hf⟩ := hall r (List.mem_cons_self r pre)
      have hstep : fetchJobStatusStep st r = { st with job := some r } :=
        fetchStep_nonterminal st r hc hf
      have hact1 : ({ st with job := some r } : ProgressState).pollActive
          = true := hact
      obtain ⟨st2, heq, h1, h2, h3⟩ :=
        ih { st with job := some r } hact1
          (fun x hx => hall x (List.mem_cons_of_mem r hx)) rest
      refine ⟨st2, ?_, h1, h2, h3⟩
      show pollLoop st (r :: (pre ++ rest)) = pollLoop st2 rest
      rw [pollLoop, hstep]
      rw [if_pos hact]
      exact heq

/-! ### Concrete demonstration states for the witnesses -/

/-- Demonstration separation parameters. -/
def demoParams : JobParams := .separation .demucs .fast

/-- Demonstration job 0 as created. -/
def demoJob0 : Job := mkJob 0 demoParams 0

/-- Demonstration job 1 as created. -/
def demoJob1 : Job := mkJob 1 demoParams 1

/-- Demonstration job 0 after the executor dequeued it. -/
def demoJob0run : Job :=
  { demoJob0 with status := .processing, started_at := some 5, progress := 0 }

/-- State after creating job 0. -/
def demoS1a : SysState :=
  { jobs := setJob (fun _ => none) 0 demoJob0,
    tracks := [], tablatures := [], busy := false }

/-- State after creating jobs 0 and 1. -/
def demoS1b : SysState :=
  { jobs := setJob (setJob (fun _ => none) 0 demoJob0) 1 demoJob1,
    tracks := [], tablatures := [], busy := false }

/-- State after creating jobs 0 and 1 and starting job 0:
job 0 PROCESSING, job 1 still PENDING, slot busy. -/
def demoS2 : SysState :=
  { jobs := setJob (setJob (setJob (fun _ => none) 0 demoJob0) 1 demoJob1)
      0 demoJob0run,
    tracks := [], tablatures := [], busy := true }

/-- Demonstration track produced for job 0. -/
def demoTrack : Track :=
  { id := 100, separation_job_id := 0, instrument_name := "vocals" }

/-- Demonstration job 0 after the engine returned one stem. -/
def demoJob0c : Job :=
  { demoJob0run with
    status := .completed
    progress := 100
    completed_at := some 9
    result_refs := [100] }

/-- State after job 0 completed with one track; job 1 still PENDING. -/
def demoS4 : SysState :=
  { jobs := setJob demoS2.jobs 0 demoJob0c,
    tracks := [demoTrack], tablatures := [], busy := false }

/-- State after additionally creating job 2. -/
def demoS5 : SysState :=
  { demoS4 with jobs := setJob demoS4.jobs 2 (mkJob 2 demoParams 20) }

/-- The two-jobs-one-processing demonstration state is reachable. -/
theorem demoS2_reachable : Reachable demoS2 :=
  Reachable.step (Event.start 0 5)
    (Reachable.step (Event.create 1 demoParams 1)
      (Reachable.step (Event.create 0 demoParams 0) Reachable.init rfl)
      rfl)
    rfl

/-- The completed-job demonstration state is reachable. -/
theorem demoS4_reachable : Reachable demoS4 :=
  Reachable.step (Event.complete 0 [demoTrack] 9) demoS2_reachable rfl

/-- A PROCESSING job's progress never decreases across an event. -/
theorem progress_step_mono {s s' : SysState} {e : Event}
    (hPB : ProgressBounded s) (hst : step s e = some s')
    {i : Nat} {j : Job} (hj : s.jobs i = some j)
    (hp : j.status = .processing) :
    ∀ j', s'.jobs i = some j' → j.progress ≤ j'.progress := by
  intro j' hj'
  cases e with
  | create id ps t =>
      simp only [step] at hst
      split at hst
      · exact Option.noConfusion hst
      · rename_i hnone
        obtain rfl := Option.some.inj hst
        rcases setJob_lookup hj' with ⟨rfl, rfl⟩ | ⟨_, h2⟩
        · rw [hnone] at hj
          exact Option.noConfusion hj
        · rw [hj] at h2
          obtain rfl := Option.some.inj h2
          exact le_refl _
  | start id t =>
      simp only [step] at hst
      split at hst
      · exact Option.noConfusion hst
      · rename_i jx hjx
        split at hst
        · rename_i hcond
          obtain rfl := Option.some.inj hst
          rcases setJob_lookup hj' with ⟨rfl, rfl⟩ | ⟨_, h2⟩
          · rw [hjx] at hj
            obtain rfl := Option.some.inj hj
            rw [hp] at hcond
            exact absurd hcond.1 (by simp)
          · rw [hj] at h2
            obtain rfl := Option.some.inj h2
            exact le_refl _
        · exact Option.noConfusion hst
  | report id r =>
      simp only [step] at hst
      split at hst
      · exact Option.noConfusion hst
      · rename_i jx hjx
        split at hst
        · obtain rfl := Option.some.inj hst
          rcases setJob_lookup hj' with ⟨rfl, rfl⟩ | ⟨_, h2⟩
          · rw [hjx] at hj
            obtain rfl := Option.some.inj hj
            exact Nat.le_max_left _ _
          · rw [hj] at h2
            obtain rfl := Option.some.inj h2
            exact le_refl _
        · exact Option.noConfusion hst
  | complete id newTracks t =>
      simp only [step] at hst
      split at hst
      · exact Option.noConfusion hst
      · rename_i jx hjx
        split at hst
        · obtain rfl := Option.some.inj hst
          rcases setJob_lookup hj' with ⟨rfl, rfl⟩ | ⟨_, h2⟩
          · exact hPB _ _ hj
          · rw [hj] at h2
            obtain rfl := Option.some.inj h2
            exact le_refl _
        · exact Option.noConfusion hst
  | fail id msg t =>
      simp only [step] at hst
      split at hst
      · exact Option.noConfusion hst
      · rename_i jx hjx
        split at hst
        · obtain rfl := Option.some.inj hst
          rcases setJob_lookup hj' with ⟨rfl, rfl⟩ | ⟨_, h2⟩
          · rw [hjx] at hj
            obtain rfl := Option.some.inj hj
            exact le_refl _
          · rw [hj] at h2
            obtain rfl := Option.some.inj h2
            exact le_refl _
        · exact Option.noConfusion hst
  | delete id =>
      simp only [step] at hst
      split at hst
      · exact Option.noConfusion hst
      · rename_i jx hjx
        split at hst
        · exact Option.noConfusion hst
        · obtain rfl := Option.some.inj hst
          by_cases hi : i = id
          · simp only [hi, if_pos rfl] at hj'
            exact Option.noConfusion hj'
          · simp only [if_neg hi] at hj'
            rw [hj] at hj'
            obtain rfl := Option.some.inj hj'
            exact le_refl _

/-- A successful report event applies exactly
progress = max(progress, reported). -/
theorem report_applies_max {s s' : SysState} {i r : Nat} {j : Job}
    (hj : s.jobs i = some j)
    (hst : step s (Event.report i r) = some s') :
    s'.jobs i = some { j with progress := max j.progress r } := by
  simp only [step] at hst
  split at hst
  · exact Option.noConfusion hst
  · rename_i jx hjx
    split at hst
    · obtain rfl := Option.some.inj hst
      rw [hj] at hjx
      obtain rfl := Option.some.inj hjx
      simp [setJob]
    · exact Option.noConfusion hst

/-- C1: under the in-process single-slot execution policy, every reachable
state has at most one job in PROCESSING; moreover, for any event taken from
a reachable state, a PROCESSING job can only remain PROCESSING or move to a
terminal state (COMPLETED or FAILED), and while it is PROCESSING every
other PENDING job stays PENDING — the second of two submissions remains
PENDING until the first reaches a terminal state. -/
theorem single_slot_serialization (s : SysState) (hreach : Reachable s) :
    AtMostOneProcessing s ∧
    (∀ e s', step s e = some s' →
      ∀ i1 j1, s.jobs i1 = some j1 → j1.status = .processing →
        (∀ j1', s'.jobs i1 = some j1' →
          j1'.status = .processing ∨ j1'.status = .completed ∨
            j1'.status = .failed) ∧
        (∀ i2 j2, i2 ≠ i1 → s.jobs i2 = some j2 → j2.status = .pending →
          ∀ j2', s'.jobs i2 = some j2' → j2'.status = .pending)) := by
  have hInv := reachable_inv hreach
  refine ⟨hInv.1, ?_⟩
  intro e s' hst i1 j1 h1 hp1
  refine ⟨processing_evolves_step hst h1 hp1, ?_⟩
  intro i2 j2 hne h2 hp2
  refine pending_preserved_step hInv hst h1 hp1 hne ?_
  intro jx hx
  rw [h2] at hx
  obtain rfl := Option.some.inj hx
  exact hp2

/-- Witness for C1: a concrete reachable state holding one PROCESSING job
and one PENDING job satisfies the at-most-one-PROCESSING property. -/
theorem single_slot_serialization_witness : AtMostOneProcessing demoS2 :=
  (single_slot_serialization demoS2 demoS2_reachable).1

/-- C2: in every reachable state each job's progress lies in [0,100]; across
any event a PROCESSING job's progress never decreases; and a progress
report is applied exactly as progress = max(progress, reported). -/
theorem progress_monotone_bounded (s : SysState) (hreach : Reachable s) :
    ProgressBounded s ∧
    (∀ e s', step s e = some s' →
      ∀ i j j', s.jobs i = some j → j.status = .processing →
        s'.jobs i = some j' → j.progress ≤ j'.progress) ∧
    (∀ i j r s', s.jobs i = some j →
      step s (Event.report i r) = some s' →
      s'.jobs i = some { j with progress := max j.progress r }) := by
  have hInv := reachable_inv hreach
  refine ⟨hInv.2.2.1, ?_, ?_⟩
  · intro e s' hst i j j' hj hp hj'
    exact progress_step_mono hInv.2.2.1 hst hj hp j' hj'
  · intro i j r s' hj hst
    exact report_applies_max hj hst

/-- Witness for C2 at the concrete reachable state demoS2. -/
theorem progress_monotone_bounded_witness : demoJob0run.progress ≤ 100 :=
  (progress_monotone_bounded demoS2 demoS2_reachable).1 0 demoJob0run rfl

/-- C3: in every reachable state, a job's result_refs is non-empty iff its
status is COMPLETED, and its error_message is set iff its status is
FAILED. -/
theorem refs_error_iff_status (s : SysState) (hreach : Reachable s)
    (i : Nat) (j : Job) (hj : s.jobs i = some j) :
    (j.result_refs ≠ [] ↔ j.status = .completed) ∧
    (j.error_message.isSome = true ↔ j.status = .failed) := by
  have hInv := reachable_inv hreach
  exact ⟨hInv.2.2.2.1 i j hj, hInv.2.2.2.2 i j hj⟩

/-- Witness for C3 at a concrete reachable state with a COMPLETED job. -/
theorem refs_error_iff_status_witness :
    (demoJob0c.result_refs ≠ [] ↔ demoJob0c.status = JobStatus.completed) ∧
    (demoJob0c.error_message.isSome = true ↔
      demoJob0c.status = JobStatus.failed) :=
  refs_error_iff_status demoS4 demoS4_reachable 0 demoJob0c rfl

/-- C4: a job's status is exactly one of the four enum values; COMPLETED and
FAILED are terminal — an event leaves a terminal job unchanged; and
creation always yields PENDING. -/
theorem terminal_states_absorbing (s s' : SysState) (e : Event) (i : Nat)
    (j j' : Job) (hst : step s e = some s') (hj : s.jobs i = some j)
    (hterm : j.status = .completed ∨ j.status = .failed)
    (hj' : s'.jobs i = some j') :
    j' = j ∧
    (∀ jb : Job, jb.status = .pending ∨ jb.status = .processing ∨
      jb.status = .completed ∨ jb.status = .failed) ∧
    (∀ id ps t, (mkJob id ps t).status = .pending) := by
  refine ⟨terminal_step_unchanged hst hj hterm hj', ?_, ?_⟩
  · intro jb
    cases hb : jb.status <;> simp
  · intro id ps t
    rfl

/-- Witness for C4: a COMPLETED job is untouched by a further creation
event, and a concretely created job is PENDING. -/
theorem terminal_states_absorbing_witness :
    demoJob0c = demoJob0c ∧
    (mkJob 2 demoParams 20).status = JobStatus.pending :=
  ⟨(terminal_states_absorbing demoS4 demoS5 (Event.create 2 demoParams 20) 0
      demoJob0c demoJob0c rfl rfl (Or.inl rfl) rfl).1,
   (terminal_states_absorbing demoS4 demoS5 (Event.create 2 demoParams 20) 0
      demoJob0c demoJob0c rfl rfl (Or.inl rfl) rfl).2.2 2 demoParams 20⟩

/-- C5: an engine failure is caught by the Executor and converted to a
FAILED job with a non-null error_message; the job's progress is retained at
the running maximum of the reports already applied. The status-read path
always receives a Job record: execJob is total, no exception escapes. -/
theorem engine_failure_to_failed (j : Job) (t1 t2 : Nat)
    (reports : List Nat) (msg : String) (ids : List Nat)
    (hp : j.status = .pending) :
    (execJob j t1 ⟨reports, .failure msg⟩ ids t2).status = .failed ∧
    (execJob j t1 ⟨reports, .failure msg⟩ ids t2).error_message = some msg ∧
    (execJob j t1 ⟨reports, .failure msg⟩ ids t2).progress =
      reports.foldl max 0 := by
  simp [execJob, hp, foldl_reports]

/-- Witness for C5: the spec scenario — the engine raises after reporting
progress 30, leaving status FAILED, the message recorded, and progress
30. -/
theorem engine_failure_to_failed_witness :
    (execJob (mkJob 0 demoParams 0) 5
      ⟨[30], .failure "separation error"⟩ [] 9).status = JobStatus.failed ∧
    (execJob (mkJob 0 demoParams 0) 5
      ⟨[30], .failure "separation error"⟩ [] 9).error_message =
        some "separation error" ∧
    (execJob (mkJob 0 demoParams 0) 5
      ⟨[30], .failure "separation error"⟩ [] 9).progress = 30 :=
  engine_failure_to_failed (mkJob 0 demoParams 0) 5 9 [30]
    "separation error" [] rfl

/-- C6: a successful creation event installs exactly the freshly created
job, and every created job has status PENDING, progress 0, and no
started_at — this is the Job returned synchronously to the caller. -/
theorem creation_returns_pending (s s' : SysState) (id : Nat)
    (ps : JobParams) (t : Nat)
    (hst : step s (Event.create id ps t) = some s') :
    s'.jobs id = some (mkJob id ps t) ∧
    (mkJob id ps t).status = .pending ∧ (mkJob id ps t).progress = 0 ∧
    (mkJob id ps t).started_at = none := by
  refine ⟨?_, rfl, rfl, rfl⟩
  simp only [step] at hst
  split at hst
  · exact Option.noConfusion hst
  · obtain rfl := Option.some.inj hst
    simp [setJob]

/-- Witness for C6: the concrete creation of job 0 from the empty store. -/
theorem creation_returns_pending_witness :
    demoS1a.jobs 0 = some (mkJob 0 demoParams 0) ∧
    (mkJob 0 demoParams 0).status = JobStatus.pending ∧
    (mkJob 0 demoParams 0).progress = 0 ∧
    (mkJob 0 demoParams 0).started_at = none :=
  creation_returns_pending initState demoS1a 0 demoParams 0 rfl

/-- C8: deleting a PROCESSING job yields the defined conflict error and an
unknown id yields not-found; deleting a COMPLETED job succeeds, removes the
job together with its derived Tracks and the Tablatures of those Tracks,
and a subsequent status read of that id returns not-found. -/
theorem delete_job_semantics (s : SysState) (id : Nat) :
    (∀ j, s.jobs id = some j → j.status = .processing →
      deleteJob s id = .error .conflict) ∧
    (s.jobs id = none → deleteJob s id = .error .notFound) ∧
    (∀ j, s.jobs id = some j → j.status = .completed →
      ∃ s2, deleteJob s id = .ok s2 ∧
        getJobStatus s2 id = .error .notFound ∧
        (∀ tr ∈ s2.tracks, tr.separation_job_id ≠ id) ∧
        (∀ tb ∈ s2.tablatures, ∀ tr ∈ s.tracks,
          tr.separation_job_id = id → tb.track_id ≠ tr.id)) := by
  refine ⟨?_, ?_, ?_⟩
  · intro j hj hp
    simp [deleteJob, hj, hp]
  · intro h
    simp [deleteJob, h]
  · intro j hj hc
    have hnp : ¬ j.status = .processing := by
      rw [hc]
      simp
    refine ⟨{ jobs := fun i => if i = id then none else s.jobs i,
              tracks := s.tracks.filter
                (fun tr => tr.separation_job_id != id),
              tablatures := s.tablatures.filter
                (fun tb => s.tracks.all
                  (fun tr =>
                    tr.separation_job_id != id || tb.track_id != tr.id)),
              busy := s.busy }, ?_, ?_, ?_, ?_⟩
    · simp [deleteJob, hj, hnp]
    · simp [getJobStatus]
    · intro tr htr
      rw [List.mem_filter] at htr
      simpa using htr.2
    · intro tb htb tr htr hsep
      rw [List.mem_filter] at htb
      have hall := (List.all_eq_true.mp htb.2) tr htr
      simp [hsep] at hall
      exact hall


/-- Witness for C8: deleting the concretely COMPLETED job 0 succeeds and
scrubs its derived rows. -/
theorem delete_job_semantics_witness :
    ∃ s2, deleteJob demoS4 0 = .ok s2 ∧
      getJobStatus s2 0 = .error .notFound ∧
      (∀ tr ∈ s2.tracks, tr.separation_job_id ≠ 0) ∧
      (∀ tb ∈ s2.tablatures, ∀ tr ∈ demoS4.tracks,
        tr.separation_job_id = 0 → tb.track_id ≠ tr.id) :=
  (delete_job_semantics demoS4 0).2.2 demoJob0c rfl rfl

/-- C9: dispatching the same PENDING job twice invokes the engine exactly
once and produces exactly one terminal transition — the second dispatch is
a no-op returning the unchanged job with zero engine invocations, and
dispatching an already-PROCESSING job is likewise a no-op. -/
theorem duplicate_dispatch_idempotent (j : Job) (t1 t2 t3 t4 : Nat)
    (r1 r2 : EngineRun) (ids1 ids2 : List Nat) (hp : j.status = .pending) :
    (execJobCounted j t1 r1 ids1 t2).2 = 1 ∧
    execJobCounted (execJobCounted j t1 r1 ids1 t2).1 t3 r2 ids2 t4 =
      ((execJobCounted j t1 r1 ids1 t2).1, 0) ∧
    ((execJobCounted j t1 r1 ids1 t2).1.status = .completed ∨
      (execJobCounted j t1 r1 ids1 t2).1.status = .failed) ∧
    (∀ jp : Job, jp.status = .processing → ∀ t5 t6 r3 ids3,
      execJobCounted jp t5 r3 ids3 t6 = (jp, 0)) := by
  have hterm := execJob_terminal j t1 t2 r1 ids1 hp
  have h1 : execJobCounted j t1 r1 ids1 t2 = (execJob j t1 r1 ids1 t2, 1) := by
    simp [execJobCounted, hp]
  refine ⟨by rw [h1], ?_, ?_, ?_⟩
  · rw [h1]
    have hnp : ¬ (execJob j t1 r1 ids1 t2).status = .pending := by
      rcases hterm with h | h <;> rw [h] <;> simp
    simp [execJobCounted, hnp]
  · rw [h1]
    exact hterm
  · intro jp hproc t5 t6 r3 ids3
    have hnp : ¬ jp.status = .pending := by
      rw [hproc]
      simp
    simp [execJobCounted, hnp]

/-- Witness for C9 at a concrete PENDING job and two engine runs. -/
theorem duplicate_dispatch_idempotent_witness :
    (execJobCounted (mkJob 3 demoParams 0) 5
      ⟨[40, 100], .success ["vocals"]⟩ [7] 9).2 = 1 ∧
    execJobCounted (execJobCounted (mkJob 3 demoParams 0) 5
        ⟨[40, 100], .success ["vocals"]⟩ [7] 9).1 11
        ⟨[], .failure "dup"⟩ [] 12 =
      ((execJobCounted (mkJob 3 demoParams 0) 5
        ⟨[40, 100], .success ["vocals"]⟩ [7] 9).1, 0) ∧
    ((execJobCounted (mkJob 3 demoParams 0) 5
        ⟨[40, 100], .success ["vocals"]⟩ [7] 9).1.status =
          JobStatus.completed ∨
      (execJobCounted (mkJob 3 demoParams 0) 5
        ⟨[40, 100], .success ["vocals"]⟩ [7] 9).1.status =
          JobStatus.failed) ∧
    (∀ jp : Job, jp.status = JobStatus.processing → ∀ t5 t6 r3 ids3,
      execJobCounted jp t5 r3 ids3 t6 = (jp, 0)) :=
  duplicate_dispatch_idempotent (mkJob 3 demoParams 0) 5 9 11 12
    ⟨[40, 100], .success ["vocals"]⟩ ⟨[], .failure "dup"⟩ [7] [] rfl

/-- When a fetchJobStatus execution clears the interval, the poll loop
stops there: later ticks never run. -/
theorem pollLoop_cons_stop (st : ProgressState) (r : SeparationJob)
    (rs : List SeparationJob)
    (h : (fetchJobStatusStep st r).pollActive = false) :
    pollLoop st (r :: rs) = fetchJobStatusStep st r := by
  simp [pollLoop, h]

/-- C7: the pull-mode client polls at the fixed 2000 ms interval, keeps
polling exactly while every read is non-terminal, and stops (the interval
is cleared) at the first terminal read — invoking the completion handler
with the COMPLETED record, or recording the failure text for a FAILED
record; later reads are never issued. -/
theorem poll_until_terminal :
    pollIntervalMs = 2000 ∧
    (∀ reads : List SeparationJob,
      (∀ r ∈ reads, r.status ≠ .completed ∧ r.status ≠ .failed) →
      (pollLoop initProgressState reads).pollActive = true ∧
      (pollLoop initProgressState reads).completedCalls = [] ∧
      (pollLoop initProgressState reads).error = none) ∧
    (∀ (pre post : List SeparationJob) (jr : SeparationJob),
      (∀ r ∈ pre, r.status ≠ .completed ∧ r.status ≠ .failed) →
      jr.status = .completed →
      (pollLoop initProgressState (pre ++ jr :: post)).pollActive = false ∧
      (pollLoop initProgressState (pre ++ jr :: post)).job = some jr ∧
      (pollLoop initProgressState (pre ++ jr :: post)).completedCalls
        = [jr]) ∧
    (∀ (pre post : List SeparationJob) (jr : SeparationJob),
      (∀ r ∈ pre, r.status ≠ .completed ∧ r.status ≠ .failed) →
      jr.status = .failed →
      (pollLoop initProgressState (pre ++ jr :: post)).pollActive = false ∧
      (pollLoop initProgressState (pre ++ jr :: post)).error =
        some (jr.error_message.getD defaultErrorText)) := by
  refine ⟨rfl, ?_, ?_, ?_⟩
  · intro reads hall
    obtain ⟨st2, heq, h1, h2, h3⟩ :=
      pollLoop_nonterminal_prefix reads initProgressState rfl hall []
    rw [List.append_nil] at heq
    rw [heq]
    simp only [pollLoop]
    refine ⟨h1, ?_, ?_⟩
    · rw [h3]
      rfl
    · rw [h2]
      rfl
  · intro pre post jr hall hc
    obtain ⟨st2, heq, h1, h2, h3⟩ :=
      pollLoop_nonterminal_prefix pre initProgressState rfl hall (jr :: post)
    have hstep : fetchJobStatusStep st2 jr =
        { st2 with
          job := some jr
          completedCalls := st2.completedCalls ++ [jr]
          pollActive := false } := by
      simp [fetchJobStatusStep, hc]
    rw [heq, pollLoop_cons_stop st2 jr post (by rw [hstep]), hstep]
    refine ⟨rfl, rfl, ?_⟩
    rw [h3]
    rfl
  · intro pre post jr hall hf
    obtain ⟨st2, heq, h1, h2, h3⟩ :=
      pollLoop_nonterminal_prefix pre initProgressState rfl hall (jr :: post)
    have hnc : jr.status ≠ .completed := by
      rw [hf]
      simp
    have hstep : fetchJobStatusStep st2 jr =
        { st2 with
          job := some jr
          error := some (jr.error_message.getD defaultErrorText)
          pollActive := false } := by
      simp [fetchJobStatusStep, hnc, hf]
    rw [heq, pollLoop_cons_stop st2 jr post (by rw [hstep]), hstep]
    exact ⟨rfl, rfl⟩

/-- A snapshot the poll loop reads while the job is still PROCESSING. -/
def demoReadP : SeparationJob :=
  { id := "job-1", audio_file_id := "file-1", status := .processing,
    algorithm := "demucs", quality := "fast", progress := 40,
    error_message := none, created_at := "t0", started_at := some "t1",
    completed_at := none, tracks := [] }

/-- The COMPLETED snapshot the poll loop reads afterwards. -/
def demoReadC : SeparationJob :=
  { demoReadP with status := .completed, progress := 100 }

/-- Witness for C7: one non-terminal read followed by a COMPLETED read
stops the poll, renders the COMPLETED record, and fires onCompleted once. -/
theorem poll_until_terminal_witness :
    (pollLoop initProgressState
      ([demoReadP] ++ demoReadC :: [])).pollActive = false ∧
    (pollLoop initProgressState
      ([demoReadP] ++ demoReadC :: [])).job = some demoReadC ∧
    (pollLoop initProgressState
      ([demoReadP] ++ demoReadC :: [])).completedCalls = [demoReadC] :=
  poll_until_terminal.2.2.1 [demoReadP] [] demoReadC
    (by
      intro r hr
      rw [List.mem_singleton] at hr
      subst hr
      exact ⟨by simp [demoReadP], by simp [demoReadP]⟩)
    rfl

/-- C10: the push-channel client never renders the push payload directly:
its onmessage handler's result is independent of the payload, the rendered
job state is exactly the record the fresh pull read (getJobStatus)
returned, and the poll-interval state is untouched. -/
theorem push_renders_pull (u1 u2 : JobStatusUpdate)
    (fetched : SeparationJob) (st : ProgressState) :
    handlePushMessage u1 fetched st = handlePushMessage u2 fetched st ∧
    (handlePushMessage u1 fetched st).job = some fetched ∧
    (handlePushMessage u1 fetched st).pollActive = st.pollActive := by
  refine ⟨rfl, ?_, ?_⟩ <;>
    by_cases hc : fetched.status = .completed <;>
      by_cases hf : fetched.status = .failed <;>
        simp [handlePushMessage, hc, hf]

end MusicMade
